import Mathlib

/-!
Verification of the core claims about `carefree-toolkit`.

The development shallowly embeds the relevant parts of the repository:

* `src/cftool/dist/core.py` — the `Parallel` executor: its shared result
  store (a `SyncManager` dict with reserved keys `__meta__` and
  `__exceptions__`), the worker adapter `Parallel._f_wrapper._inner`, the
  supervisor refill step `Parallel._add_new_processes`, the GPU
  registration logic of `Parallel.__call__`, the interrupt handlers, and
  `Parallel._user_terminate`.
* `src/cftool/ml/hpo/base.py` — the index-sampling selection loop of
  `HPOBase.search`.
* `src/cftool/ml/param_utils/normalizers/cube/core.py` — the categorical
  (`self._choices is not None`) branch of `CubeNormalizer`.

Python dicts are modelled as association lists where assignment conses a
new binding and `List.lookup` returns the most recent one; machine
integers are `Nat`/`Int`; Python exceptions are string-valued error
records (`PyErr`); a fallible list indexing returns `Option`.
-/

/-- Error records: we only need to distinguish error values, so a Python
exception object is modelled by a describing string. -/
abbrev PyErr := String

/-- Keys of the `__exceptions__` submap of the shared result store: either a
task's name or the reserved `"base"` key written by the parent's interrupt /
error handlers (`Parallel.__call__`, lines 163–172).  Task names are
`f"task_{task_id}{suffix}"` (or `task_names[task_id]` plus the suffix),
injective in `task_id`, so we key tasks by their numeric id. -/
inductive RKey where
  | base : RKey
  | task (id : ℕ) : RKey
deriving DecidableEq

/-- The shared result store (`Parallel._rs`), a manager dict with reserved
keys.  `__meta__` holds `n_jobs`, `n_tasks` and the `terminated` flag
(line 96); `__exceptions__` maps keys to error records (line 97); every
other entry maps a task name to either the task's return value or the
error object the task raised (`_inner`, lines 358 and 372).  Dicts are
association lists: assignment conses, `List.lookup` reads the newest
binding. -/
structure PStore (V : Type) where
  nJobs : ℕ
  nTasks : ℕ
  terminated : Bool
  results : List (ℕ × (V ⊕ PyErr))
  exceptions : List (RKey × PyErr)
deriving DecidableEq

/-- The store as initialized by `Parallel.__call__` (lines 95–98): meta
`n_jobs` is `min(num_jobs, n_tasks)` (line 83), `terminated` starts
`False`, and `__exceptions__` starts empty. -/
def initStore (V : Type) (numJobs nTasks : ℕ) : PStore V :=
  { nJobs := min numJobs nTasks
    nTasks := nTasks
    terminated := false
    results := []
    exceptions := [] }

/-- Dict assignment `self._rs[task_name] = v`. -/
def setResult {V : Type} (s : PStore V) (id : ℕ) (v : V ⊕ PyErr) : PStore V :=
  { s with results := (id, v) :: s.results }

/-- The read-modify-assign update of the `__exceptions__` submap
(`exceptions = self.exceptions; exceptions[k] = e;
self._rs["__exceptions__"] = exceptions`). -/
def setException {V : Type} (s : PStore V) (k : RKey) (e : PyErr) : PStore V :=
  { s with exceptions := (k, e) :: s.exceptions }

/-- `Parallel._set_terminate` (lines 298–301): read `__meta__`, set its
`terminated` field to `True`, assign the submap back. -/
def setTerminateStore {V : Type} (s : PStore V) : PStore V :=
  { s with terminated := true }

/-- Lookup of a task's entry in the result store. -/
def PStore.lookupResult {V : Type} (s : PStore V) (id : ℕ) : Option (V ⊕ PyErr) :=
  s.results.lookup id

/-- The five parameter kinds of Python's `inspect.Parameter`. -/
inductive ParamKind where
  | positionalOnly
  | positionalOrKeyword
  | varPositional
  | keywordOnly
  | varKeyword
deriving DecidableEq

/-- One entry of `inspect.signature(f).parameters`. -/
structure FParam where
  name : String
  kind : ParamKind
deriving DecidableEq

/-- The capability scan of `_inner` (lines 333–346): iterate the user
function's parameters in order; a `VAR_KEYWORD` parameter grants both
capabilities and breaks the loop; a `POSITIONAL_OR_KEYWORD` parameter
named `cuda` (resp. `log_method`) grants that capability; every other
parameter is skipped.  The recursion carries the same flags the loop
accumulates: reaching `VAR_KEYWORD` returns `(true, true)` regardless of
the flags gathered so far, exactly as the Python `break` does. -/
def scanWants : List FParam → Bool × Bool
  | [] => (false, false)
  | p :: ps =>
    if p.kind = ParamKind.varKeyword then (true, true)
    else
      let r := scanWants ps
      if p.kind = ParamKind.positionalOrKeyword ∧ p.name = "cuda" then (true, r.2)
      else if p.kind = ParamKind.positionalOrKeyword ∧ p.name = "log_method" then (r.1, true)
      else r

/-- The keyword arguments `_inner` builds for the user function
(lines 333, 352, 357): `cuda = some c` means the call passes `cuda=c`
(where `c` is the wrapper's `cuda` argument, itself `None` or a device
id); `logMethod = true` means the call passes `log_method=...`. -/
structure FKwargs where
  cuda : Option (Option ℕ)
  logMethod : Bool
deriving DecidableEq

/-- Outcome of one invocation of the user function inside `_inner`:
a normal return value, an uncaught exception, or a `KeyboardInterrupt`
delivered during the call. -/
inductive FOut (V : Type) where
  | ok (v : V)
  | raises (e : PyErr)
  | interrupt

/-- The data `_f_wrapper` closes over for one task: the executor's
`use_cuda` flag, the user function's signature, and the `cuda` argument
bound at wrapper creation (`def _f_wrapper(self, task_id, cuda=None)`,
line 318). -/
structure InnerCfg where
  useCuda : Bool
  sig : List FParam
  cuda : Option ℕ
deriving DecidableEq

/-- Log lines `_inner` emits, in order of the source. -/
inductive LogMsg where
  | taskStarted
  | cudaNotWantedWarning
  | cudaWanted
  | logMethodNotWantedWarning
  | logMethodWanted
  | taskFinished
  | keyboardInterrupted
  | exceptionOccurred
  | taskTerminated
deriving DecidableEq

/-- The keyword map actually passed to the user function, as computed by
the capability scan (lines 333–357). -/
def innerKwargs (cfg : InnerCfg) : FKwargs :=
  { cuda := if (scanWants cfg.sig).1 then some cfg.cuda else none
    logMethod := (scanWants cfg.sig).2 }

/-- `Parallel._f_wrapper._inner` (lines 328–377).  `sentinel v` models
`isinstance(v, dict) and v.get("terminate", False)` (line 359); `f`
models the user function applied to its (fixed) positional arguments,
as a function of the keyword map `_inner` builds.  Returns the updated
store and the log lines emitted.

* If the termination flag is already set, return without touching the
  store (lines 329–330).
* Otherwise log `task started`, run the capability scan, log the
  cuda/log_method wanted/not-wanted lines (a warning for missing `cuda`
  only when `use_cuda` is set, lines 347–357), and call the function.
* On a normal return: write the value under the task's key (line 358);
  if it is a terminate sentinel, call `_set_terminate`, else log
  `task finished` (lines 359–361, 375–377).
* On `KeyboardInterrupt`: log and return, store untouched (lines 362–364).
* On an uncaught exception `e`: write `e` under the task's key, write
  `e` into `__exceptions__[task_name]`, then `_set_terminate`
  (lines 365–377). -/
def runInner {V : Type} (sentinel : V → Bool) (cfg : InnerCfg)
    (f : FKwargs → FOut V) (taskId : ℕ) (s : PStore V) :
    PStore V × List LogMsg :=
  if s.terminated then (s, [])
  else
    let wc := (scanWants cfg.sig).1
    let wl := (scanWants cfg.sig).2
    let logs := [LogMsg.taskStarted]
      ++ (if wc then [LogMsg.cudaWanted]
          else if cfg.useCuda then [LogMsg.cudaNotWantedWarning] else [])
      ++ (if wl then [LogMsg.logMethodWanted] else [LogMsg.logMethodNotWantedWarning])
    match f (innerKwargs cfg) with
    | FOut.interrupt => (s, logs ++ [LogMsg.keyboardInterrupted])
    | FOut.raises e =>
        (setTerminateStore (setException (setResult s taskId (Sum.inr e)) (RKey.task taskId) e),
         logs ++ [LogMsg.exceptionOccurred, LogMsg.taskTerminated])
    | FOut.ok v =>
        let s1 := setResult s taskId (Sum.inl v)
        if sentinel v then (setTerminateStore s1, logs ++ [LogMsg.taskTerminated])
        else (s1, logs ++ [LogMsg.taskFinished])

/-- The operations of one batch that touch the shared result store:
a worker running `_inner`; the parent's `_set_terminate` (reached from
`__wait`'s `KeyboardInterrupt` handler, line 234); and the parent's
`exceptions["base"] = err` handlers (`Parallel.__call__`,
lines 163–172). -/
inductive BatchOp (V : Type) where
  | worker (sentinel : V → Bool) (cfg : InnerCfg) (f : FKwargs → FOut V) (taskId : ℕ)
  | parentSetTerminate
  | parentRecordBase (e : PyErr)

/-- Effect of a batch operation on the shared result store. -/
def applyBatchOp {V : Type} (s : PStore V) : BatchOp V → PStore V
  | BatchOp.worker sentinel cfg f taskId => (runInner sentinel cfg f taskId s).1
  | BatchOp.parentSetTerminate => setTerminateStore s
  | BatchOp.parentRecordBase e => setException s RKey.base e

/-- C3: a worker whose user function raises an uncaught exception records
the error under the task's own key and under `__exceptions__[task_name]`,
and sets the termination flag (`_inner`, lines 362–377). -/
theorem inner_uncaught_error_records {V : Type}
    (sentinel : V → Bool) (cfg : InnerCfg) (f : FKwargs → FOut V)
    (taskId : ℕ) (s : PStore V) (e : PyErr)
    (hterm : s.terminated = false)
    (hf : f (innerKwargs cfg) = FOut.raises e) :
    ((runInner sentinel cfg f taskId s).1).lookupResult taskId = some (Sum.inr e) ∧
    ((runInner sentinel cfg f taskId s).1).exceptions.lookup (RKey.task taskId) = some e ∧
    ((runInner sentinel cfg f taskId s).1).terminated = true := by
  simp [runInner, hterm, hf, setTerminateStore, setException, setResult,
    PStore.lookupResult, List.lookup]

/-- Witness for `inner_uncaught_error_records` at a concrete failing task. -/
theorem inner_uncaught_error_records_witness :
    ((runInner (fun _ => false) ⟨false, [⟨"x", ParamKind.positionalOrKeyword⟩], none⟩
        (fun _ => FOut.raises "ValueError: boom") 2 (initStore ℤ 2 4)).1).lookupResult 2
        = some (Sum.inr "ValueError: boom") ∧
    ((runInner (fun _ => false) ⟨false, [⟨"x", ParamKind.positionalOrKeyword⟩], none⟩
        (fun _ => FOut.raises "ValueError: boom") 2 (initStore ℤ 2 4)).1).exceptions.lookup
        (RKey.task 2) = some "ValueError: boom" ∧
    ((runInner (fun _ => false) ⟨false, [⟨"x", ParamKind.positionalOrKeyword⟩], none⟩
        (fun _ => FOut.raises "ValueError: boom") 2 (initStore ℤ 2 4)).1).terminated = true :=
  inner_uncaught_error_records _ _ _ _ _ _ rfl rfl

/-- C4: the termination flag is monotonic within a batch.  It starts
`False` (`Parallel.__call__`, line 96), and no store operation of the
batch — a worker run of `_inner`, the parent's `_set_terminate`, or the
parent's `base`-exception handlers — ever resets it to `False`
(`_set_terminate` only writes `True`, lines 298–301; `_inner` returns
immediately when the flag is set, lines 329–330). -/
theorem terminated_flag_monotonic (V : Type) (numJobs nTasks : ℕ) :
    (initStore V numJobs nTasks).terminated = false ∧
    ∀ (s : PStore V) (op : BatchOp V),
      s.terminated = true → (applyBatchOp s op).terminated = true := by
  refine ⟨rfl, ?_⟩
  intro s op h
  cases op with
  | worker sentinel cfg f taskId => simp [applyBatchOp, runInner, h]
  | parentSetTerminate => simp [applyBatchOp, setTerminateStore]
  | parentRecordBase e => simpa [applyBatchOp, setException] using h

/-- Witness for `terminated_flag_monotonic`: a concrete already-terminated
store stays terminated across a worker run. -/
theorem terminated_flag_monotonic_witness :
    (applyBatchOp (PStore.mk 1 1 true [] [])
      (BatchOp.worker (fun _ => false) ⟨false, [], none⟩
        (fun _ => FOut.ok (0 : ℤ)) 0)).terminated = true :=
  (terminated_flag_monotonic ℤ 1 1).2 _ _ rfl

/-- The identity user function of task `i` as seen by `_inner`: it ignores
the keyword map (it declares neither capability) and returns its
positional argument `v_i`.  `getD` with default `0` equals `vs[i]` for
every in-range `i`. -/
def identityOutcome (vs : List ℤ) (i : ℕ) : FKwargs → FOut ℤ :=
  fun _ => FOut.ok (vs.getD i 0)

/-- The terminate-sentinel test for integer results:
`isinstance(v, dict)` is `False` for an `int`, so no integer result is a
terminate sentinel (line 359). -/
def noSentinel : ℤ → Bool := fun _ => false

/-- Wrapper configuration for the identity function `lambda x: x`: one
positional-or-keyword parameter, no CUDA use, no device assigned. -/
def identityCfg : InnerCfg :=
  { useCuda := false, sig := [⟨"x", ParamKind.positionalOrKeyword⟩], cuda := none }

/-- One supervisor-observed task execution of the identity batch. -/
def identityStep (vs : List ℤ) (s : PStore ℤ) (i : ℕ) : PStore ℤ :=
  (runInner noSentinel identityCfg (identityOutcome vs i) i s).1

/-- A complete run of the identity batch under the task-execution order
`sched`.  The supervisor spawns each task id exactly once (the cursor
over `_all_task_ids` only advances, `_add_new_processes` lines 277–281),
every task's `_inner` writes only its own key, and completion order is
nondeterministic (spec §4.D), so a full run is a fold of `_inner` over
some permutation of the task ids. -/
def runSchedule (numJobs : ℕ) (vs : List ℤ) (sched : List ℕ) : PStore ℤ :=
  sched.foldl (identityStep vs) (initStore ℤ numJobs vs.length)

/-- The error with which line 152 of `Parallel.__call__`
(`self._working_processes, task_info = map(list, zip(*init_processes))`)
fails when `init_processes` is empty, i.e. when `min(num_jobs, n_tasks)`
is `0`. -/
def unpackError : PyErr := "ValueError: not enough values to unpack"

/-- `Parallel.__call__` on the identity function (non-Windows path,
lines 79–188).  When `min(num_jobs, n_tasks) = 0` there are no initial
processes and the tuple unpacking at line 152 raises `ValueError`; the
`except Exception` handler (lines 168–172) records it under
`__exceptions__["base"]` and the `finally` block returns the store.
Otherwise the batch runs every task through `_inner` in some order
`sched`. -/
def parallelIdentityCall (numJobs : ℕ) (vs : List ℤ) (sched : List ℕ) : PStore ℤ :=
  if min numJobs vs.length = 0 then
    setException (initStore ℤ numJobs vs.length) RKey.base unpackError
  else runSchedule numJobs vs sched

/-- One identity task execution writes its own key, leaves every other
key unchanged, and preserves an un-terminated, exception-free store. -/
theorem identityStep_spec (vs : List ℤ) (s : PStore ℤ) (i : ℕ)
    (hterm : s.terminated = false) (hexc : s.exceptions = []) :
    (identityStep vs s i).terminated = false ∧
    (identityStep vs s i).exceptions = [] ∧
    (identityStep vs s i).lookupResult i = some (Sum.inl (vs.getD i 0)) ∧
    ∀ j, j ≠ i → (identityStep vs s i).lookupResult j = s.lookupResult j := by
  refine ⟨?_, ?_, ?_, ?_⟩
  · simp [identityStep, runInner, hterm, identityOutcome, noSentinel, setResult]
  · simp [identityStep, runInner, hterm, identityOutcome, noSentinel, setResult, hexc]
  · simp [identityStep, runInner, hterm, identityOutcome, noSentinel, setResult,
      PStore.lookupResult, List.lookup]
  · intro j hj
    simp only [identityStep, runInner, hterm, identityOutcome, noSentinel, setResult,
      PStore.lookupResult, List.lookup, Bool.false_eq_true, if_false]
    have : (j == i) = false := beq_eq_false_iff_ne.mpr hj
    simp [this]

/-- Folding identity tasks over any schedule keeps the store
un-terminated and exception-free, records `v_i` for every scheduled `i`,
and leaves unscheduled keys unchanged. -/
theorem runSchedule_fold_spec (vs : List ℤ) :
    ∀ (sched : List ℕ) (s : PStore ℤ),
      s.terminated = false → s.exceptions = [] →
      (sched.foldl (identityStep vs) s).terminated = false ∧
      (sched.foldl (identityStep vs) s).exceptions = [] ∧
      ∀ i, (i ∈ sched →
              (sched.foldl (identityStep vs) s).lookupResult i
                = some (Sum.inl (vs.getD i 0))) ∧
           (i ∉ sched →
              (sched.foldl (identityStep vs) s).lookupResult i = s.lookupResult i) := by
  intro sched
  induction sched with
  | nil =>
      intro s hterm hexc
      exact ⟨hterm, hexc, fun i => ⟨fun h => absurd h (List.not_mem_nil i), fun _ => rfl⟩⟩
  | cons j rest ih =>
      intro s hterm hexc
      obtain ⟨h1, h2, h3, h4⟩ := identityStep_spec vs s j hterm hexc
      obtain ⟨g1, g2, g3⟩ := ih (identityStep vs s j) h1 h2
      refine ⟨g1, g2, ?_⟩
      intro i
      constructor
      · intro hi
        rcases List.mem_cons.mp hi with h | h
        · subst h
          by_cases hrest : i ∈ rest
          · exact (g3 i).1 hrest
          · rw [List.foldl_cons, (g3 i).2 hrest]; exact h3
        · exact (g3 i).1 h
      · intro hi
        have hij : i ≠ j := fun h => hi (h ▸ List.mem_cons_self j rest)
        have hrest : i ∉ rest := fun h => hi (List.mem_cons_of_mem j h)
        rw [List.foldl_cons, (g3 i).2 hrest]
        exact h4 i hij

/-- C1 (amended): for a nonempty value list and at least one job, running
the executor on the identity function yields `results[task_name(i)] = v_i`
for every `i`, an empty `__exceptions__` submap and `terminated = false`,
for every task-execution order. -/
theorem parallel_identity_run (numJobs : ℕ) (vs : List ℤ) (sched : List ℕ)
    (hJ : 1 ≤ numJobs) (hN : 1 ≤ vs.length)
    (hperm : sched.Perm (List.range vs.length)) :
    (∀ i, i < vs.length →
      (parallelIdentityCall numJobs vs sched).lookupResult i
        = some (Sum.inl (vs.getD i 0))) ∧
    (parallelIdentityCall numJobs vs sched).exceptions = [] ∧
    (parallelIdentityCall numJobs vs sched).terminated = false := by
  have hmin : ¬ (min numJobs vs.length = 0) := by omega
  obtain ⟨h1, h2, h3⟩ :=
    runSchedule_fold_spec vs sched (initStore ℤ numJobs vs.length) rfl rfl
  refine ⟨?_, ?_, ?_⟩
  · intro i hi
    have hmem : i ∈ sched := hperm.mem_iff.mpr (List.mem_range.mpr hi)
    simpa [parallelIdentityCall, hmin, runSchedule] using (h3 i).1 hmem
  · simpa [parallelIdentityCall, hmin, runSchedule] using h2
  · simpa [parallelIdentityCall, hmin, runSchedule] using h1

/-- Witness for `parallel_identity_run` on the batch `[5, -3]` with two
jobs, executed in the order `[1, 0]`. -/
theorem parallel_identity_run_witness :
    (parallelIdentityCall 2 [5, -3] [1, 0]).lookupResult 0 = some (Sum.inl 5) ∧
    (parallelIdentityCall 2 [5, -3] [1, 0]).lookupResult 1 = some (Sum.inl (-3)) ∧
    (parallelIdentityCall 2 [5, -3] [1, 0]).exceptions = [] ∧
    (parallelIdentityCall 2 [5, -3] [1, 0]).terminated = false := by
  have h := parallel_identity_run 2 [5, -3] [1, 0] (by decide) (by decide) (by decide)
  exact ⟨h.1 0 (by decide), h.1 1 (by decide), h.2.1, h.2.2⟩

/-- C1 counterexample: on the empty batch (`N = 0`, any `num_jobs`) the
claim fails — the `__exceptions__` submap is not empty, because the tuple
unpacking at line 152 raises `ValueError` on an empty `init_processes`
and the handler records it under `"base"`. -/
theorem parallel_identity_empty_batch_cex :
    ¬ ((parallelIdentityCall 2 [] []).exceptions = [] ∧
       (parallelIdentityCall 2 [] []).terminated = false) := by
  decide

/-- Number of slots of a working list holding a process. -/
def countSome (l : List (Option ℕ)) : ℕ := (l.filter Option.isSome).length

/-- Number of empty (`None`) slots of a working list: slots whose
`_get_process` call declined to create a process (failed admission). -/
def countNone (l : List (Option ℕ)) : ℕ := (l.filter Option.isNone).length

/-- The number of slots `Parallel._add_new_processes` appends
(lines 271–283): `n_new_jobs = self._n_jobs - n_working` (a Python int
that may be negative — `range` of a negative is empty, which `Int.toNat`
captures), clamped by `n_res` when the pending queue is nonempty;
nothing is appended when the queue is empty. -/
def refillCount (numJobs slots queued : ℕ) : ℕ :=
  if 0 < queued then (min ((numJobs : ℤ) - (slots : ℤ)) (queued : ℤ)).toNat else 0

/-- Supervisor state: the slot list `_working_processes` (a slot is
`some taskId` when it holds a process, `none` when admission failed and
the slot carries `None`), and the pending queue
`_all_task_ids[cursor:]`. -/
structure SupState where
  working : List (Option ℕ)
  queue : List ℕ
deriving DecidableEq

/-- The supervisor states reachable in a batch of `nTasks` tasks with
`numJobs` jobs (`Parallel.__call__`, lines 130–162).

* `init`: after the initialization phase there are exactly
  `min(num_jobs, n_tasks)` slots (lines 132–152); every slot that failed
  admission holds `None` and its task id is requeued at the head of
  `_all_task_ids` (lines 136–150), so the queue length is the number of
  `None` slots plus `n_tasks - min(num_jobs, n_tasks)` (line 91).
* `loopStep`: one iteration of the main loop (lines 158–162):
  `_wait_and_handle_finish` pops every finished slot — every `None` slot
  and any slots whose process has exited (`__wait`, lines 219–229;
  `_wait_and_handle_finish`, lines 261–264) — leaving a sublist `kept`
  containing no `None`; then `_add_new_processes` pops
  `refillCount` task ids from the queue and appends that many new slots
  (created processes or `None` on failed admission, lines 277–281). -/
inductive SupReach (numJobs nTasks : ℕ) : SupState → Prop where
  | init (working : List (Option ℕ)) (queue : List ℕ)
      (hlen : working.length = min numJobs nTasks)
      (hq : queue.length = countNone working + (nTasks - min numJobs nTasks)) :
      SupReach numJobs nTasks ⟨working, queue⟩
  | loopStep (s : SupState) (kept appended : List (Option ℕ))
      (hreach : SupReach numJobs nTasks s)
      (hsub : List.Sublist kept s.working)
      (hkept : ∀ x ∈ kept, x.isSome = true)
      (happ : appended.length = refillCount numJobs kept.length s.queue.length) :
      SupReach numJobs nTasks ⟨kept ++ appended, s.queue.drop appended.length⟩

/-- Splitting a working list into processing and empty slots. -/
theorem countSome_add_countNone (l : List (Option ℕ)) :
    countSome l + countNone l = l.length := by
  induction l with
  | nil => rfl
  | cons x xs ih =>
      cases x <;> simp [countSome, countNone, List.filter] at ih ⊢ <;> omega

/-- A sublist made of processing slots is no longer than the number of
processing slots of the full list. -/
theorem kept_le_countSome (kept w : List (Option ℕ))
    (hsub : List.Sublist kept w) (hkept : ∀ x ∈ kept, x.isSome = true) :
    kept.length ≤ countSome w := by
  have h1 : kept.filter Option.isSome = kept := List.filter_eq_self.mpr hkept
  have h2 : List.Sublist (kept.filter Option.isSome) (w.filter Option.isSome) :=
    List.Sublist.filter _ hsub
  rw [h1] at h2
  exact h2.length_le

/-- The inductive invariant of the supervisor loop: the slot list never
exceeds `min(num_jobs, n_tasks)`, and slots plus queued ids never exceed
`n_tasks` plus the (transient) empty slots. -/
theorem supReach_invariant (numJobs nTasks : ℕ) (s : SupState)
    (h : SupReach numJobs nTasks s) :
    s.working.length ≤ min numJobs nTasks ∧
    s.working.length + s.queue.length ≤ nTasks + countNone s.working := by
  induction h with
  | init working queue hlen hq =>
      refine ⟨le_of_eq hlen, ?_⟩
      simp only [hlen, hq]
      omega
  | loopStep s kept appended hreach hsub hkept happ ih =>
      obtain ⟨ih1, ih2⟩ := ih
      have hks : kept.length ≤ countSome s.working := kept_le_countSome _ _ hsub hkept
      have hcc : countSome s.working + countNone s.working = s.working.length :=
        countSome_add_countNone s.working
      have hq1 : appended.length ≤ s.queue.length := by
        rw [happ, refillCount]
        split
        · exact Int.toNat_le.mpr (min_le_right _ _)
        · omega
      have hq2 : appended.length ≤ numJobs - kept.length := by
        rw [happ, refillCount]
        split
        · calc (min ((numJobs : ℤ) - kept.length) (s.queue.length : ℤ)).toNat
              ≤ ((numJobs : ℤ) - (kept.length : ℤ)).toNat :=
                Int.toNat_le_toNat (min_le_left _ _)
            _ = numJobs - kept.length := Int.toNat_sub' _ _ ▸ Int.toNat_sub numJobs kept.length
        · omega
      constructor
      · simp only [List.length_append]
        omega
      · simp only [List.length_append, List.length_drop]
        have hnn : 0 ≤ countNone (kept ++ appended) := Nat.zero_le _
        omega

/-- C2: in a batch of `n_tasks` tasks run with `num_jobs` jobs, every
reachable supervisor state has at most `min(num_jobs, n_tasks)` slots,
hence at most that many slots holding a live child process — in
particular the refill step `_add_new_processes` never grows the working
set past the bound.  (Each live child occupies exactly one slot:
processes are appended to `_working_processes` at spawn and removed at
reap, after they are observed dead.) -/
theorem live_children_bounded (numJobs nTasks : ℕ) (s : SupState)
    (h : SupReach numJobs nTasks s) :
    countSome s.working ≤ min numJobs nTasks ∧
    s.working.length ≤ min numJobs nTasks := by
  have hinv := supReach_invariant numJobs nTasks s h
  have hcc := countSome_add_countNone s.working
  exact ⟨by omega, hinv.1⟩

/-- Witness for `live_children_bounded`: the initial state of a batch of
5 tasks with 2 jobs (both slots running, three ids queued). -/
theorem live_children_bounded_witness :
    countSome [some 0, some 1] ≤ min 2 5 ∧
    (([some 0, some 1] : List (Option ℕ))).length ≤ min 2 5 :=
  live_children_bounded 2 5 ⟨[some 0, some 1], [2, 3, 4]⟩
    (SupReach.init _ _ (by decide) (by decide))

/-- `default_cuda_list = None if self._use_cuda else []`
(`Parallel.__call__`, line 113).  `none` models Python `None`
("all devices"), `some l` a concrete device list. -/
def defaultCudaList (useCuda : Bool) : Option (List ℤ) :=
  if useCuda then none else some []

/-- `gpu_config.setdefault("available_cuda_list", default_cuda_list)`
(line 114): the configured entry when present, the default otherwise. -/
def effectiveCudaList (useCuda : Bool)
    (configured : Option (Option (List ℤ))) : Option (List ℤ) :=
  configured.getD (defaultCudaList useCuda)

/-- The registration guard
`if available_cuda_list is None or available_cuda_list:` (line 115):
Python truthiness of a list is nonemptiness. -/
def registersGPU (useCuda : Bool) (configured : Option (Option (List ℤ))) : Bool :=
  match effectiveCudaList useCuda configured with
  | none => true
  | some l => !l.isEmpty

/-- Outcome of the GPU setup block of `Parallel.__call__`
(lines 112–125): whether the `"GPU"` resource kind gets registered, and
the error the block raises, if any. -/
structure GpuSetupOutcome where
  registersGPU : Bool
  raisedError : Option PyErr
deriving DecidableEq

/-- The GPU setup block (lines 112–125).  It contains no `raise` and no
fallible call on the empty-list path: when the guard at line 115 is
false the block is simply skipped (in particular `GPUManager` is only
ever constructed when the guard holds), so `raisedError` is always
`none`. -/
def gpuSetup (useCuda : Bool) (configured : Option (Option (List ℤ))) :
    GpuSetupOutcome :=
  { registersGPU := registersGPU useCuda configured
    raisedError := none }

/-- C5 counterexample: constructed with `use_cuda = True` and a
configured `available_cuda_list = []`, setup raises nothing — the claimed
`ResourceUnavailable` error does not occur. -/
theorem gpu_empty_list_no_error_cex :
    (gpuSetup true (some (some []))).raisedError = none := by
  decide

/-- C5 (amended): with `use_cuda = true` and a configured empty
`available_cuda_list`, setup does not fail: the guard
`available_cuda_list is None or available_cuda_list` is false for the
empty list, so the `"GPU"` kind is simply not registered and the batch
proceeds without GPU assignment and without any error. -/
theorem gpu_empty_list_skips_registration :
    (gpuSetup true (some (some []))).registersGPU = false ∧
    (gpuSetup true (some (some []))).raisedError = none ∧
    (gpuSetup true none).registersGPU = true := by
  decide

/-- The spec's wording of capability declaration ("the function's
parameter list declares that name or the function accepts an open
keyword map"): some parameter bears the name — of any kind — or some
parameter is `VAR_KEYWORD`.  Stated for comparison with the source's
scan `scanWants`, which only recognizes `POSITIONAL_OR_KEYWORD`
parameters. -/
def specDeclaresCapability (sig : List FParam) (name : String) : Bool :=
  sig.any (fun p => p.name == name) || sig.any (fun p => p.kind == ParamKind.varKeyword)

/-- The source's scan grants a capability exactly for a
`POSITIONAL_OR_KEYWORD` parameter of that name or a `VAR_KEYWORD`
parameter (first component: `cuda`). -/
theorem scanWants_fst_iff (sig : List FParam) :
    (scanWants sig).1 = true ↔
      (∃ p ∈ sig, p.kind = ParamKind.positionalOrKeyword ∧ p.name = "cuda") ∨
      (∃ p ∈ sig, p.kind = ParamKind.varKeyword) := by
  induction sig with
  | nil => simp [scanWants]
  | cons p ps ih =>
      by_cases hvk : p.kind = ParamKind.varKeyword
      · simp [scanWants, hvk]
      · by_cases hc : p.kind = ParamKind.positionalOrKeyword ∧ p.name = "cuda"
        · simp [scanWants, hvk, hc]
        · by_cases hl : p.kind = ParamKind.positionalOrKeyword ∧ p.name = "log_method"
          · simp only [scanWants, if_neg hvk, if_neg hc, if_pos hl]
            rw [ih]
            constructor
            · rintro (⟨q, hq, h1, h2⟩ | ⟨q, hq, h1⟩)
              · exact Or.inl ⟨q, List.mem_cons_of_mem p hq, h1, h2⟩
              · exact Or.inr ⟨q, List.mem_cons_of_mem p hq, h1⟩
            · rintro (⟨q, hq, h1, h2⟩ | ⟨q, hq, h1⟩)
              · rcases List.mem_cons.mp hq with rfl | hq'
                · exact absurd ⟨h1, h2⟩ hc
                · exact Or.inl ⟨q, hq', h1, h2⟩
              · rcases List.mem_cons.mp hq with rfl | hq'
                · exact absurd h1 hvk
                · exact Or.inr ⟨q, hq', h1⟩
          · simp only [scanWants, if_neg hvk, if_neg hc, if_neg hl]
            rw [ih]
            constructor
            · rintro (⟨q, hq, h1, h2⟩ | ⟨q, hq, h1⟩)
              · exact Or.inl ⟨q, List.mem_cons_of_mem p hq, h1, h2⟩
              · exact Or.inr ⟨q, List.mem_cons_of_mem p hq, h1⟩
            · rintro (⟨q, hq, h1, h2⟩ | ⟨q, hq, h1⟩)
              · rcases List.mem_cons.mp hq with rfl | hq'
                · exact absurd ⟨h1, h2⟩ hc
                · exact Or.inl ⟨q, hq', h1, h2⟩
              · rcases List.mem_cons.mp hq with rfl | hq'
                · exact absurd h1 hvk
                · exact Or.inr ⟨q, hq', h1⟩

/-- Second component of the scan: `log_method`. -/
theorem scanWants_snd_iff (sig : List FParam) :
    (scanWants sig).2 = true ↔
      (∃ p ∈ sig, p.kind = ParamKind.positionalOrKeyword ∧ p.name = "log_method") ∨
      (∃ p ∈ sig, p.kind = ParamKind.varKeyword) := by
  induction sig with
  | nil => simp [scanWants]
  | cons p ps ih =>
      by_cases hvk : p.kind = ParamKind.varKeyword
      · simp [scanWants, hvk]
      · by_cases hc : p.kind = ParamKind.positionalOrKeyword ∧ p.name = "cuda"
        · simp only [scanWants, if_neg hvk, if_pos hc]
          rw [ih]
          constructor
          · rintro (⟨q, hq, h1, h2⟩ | ⟨q, hq, h1⟩)
            · exact Or.inl ⟨q, List.mem_cons_of_mem p hq, h1, h2⟩
            · exact Or.inr ⟨q, List.mem_cons_of_mem p hq, h1⟩
          · rintro (⟨q, hq, h1, h2⟩ | ⟨q, hq, h1⟩)
            · rcases List.mem_cons.mp hq with rfl | hq'
              · exact absurd (hc.2.symm.trans h2) (by decide)
              · exact Or.inl ⟨q, hq', h1, h2⟩
            · rcases List.mem_cons.mp hq with rfl | hq'
              · exact absurd h1 hvk
              · exact Or.inr ⟨q, hq', h1⟩
        · by_cases hl : p.kind = ParamKind.positionalOrKeyword ∧ p.name = "log_method"
          · simp [scanWants, hvk, hc, hl]
          · simp only [scanWants, if_neg hvk, if_neg hc, if_neg hl]
            rw [ih]
            constructor
            · rintro (⟨q, hq, h1, h2⟩ | ⟨q, hq, h1⟩)
              · exact Or.inl ⟨q, List.mem_cons_of_mem p hq, h1, h2⟩
              · exact Or.inr ⟨q, List.mem_cons_of_mem p hq, h1⟩
            · rintro (⟨q, hq, h1, h2⟩ | ⟨q, hq, h1⟩)
              · rcases List.mem_cons.mp hq with rfl | hq'
                · exact absurd ⟨h1, h2⟩ hl
                · exact Or.inl ⟨q, hq', h1, h2⟩
              · rcases List.mem_cons.mp hq with rfl | hq'
                · exact absurd h1 hvk
                · exact Or.inr ⟨q, hq', h1⟩

/-- C6 (amended): the worker adapter passes `cuda` (resp. `log_method`)
iff the user function declares that name as a `POSITIONAL_OR_KEYWORD`
parameter or declares a `VAR_KEYWORD` parameter — parameters of other
kinds (keyword-only, positional-only) are not recognized; and when
`use_cuda` is set but the function does not want `cuda`, the adapter
logs a warning and the task still runs to completion (result recorded,
flag untouched). -/
theorem inner_capability_passing {V : Type} (cfg : InnerCfg) :
    ((innerKwargs cfg).cuda = some cfg.cuda ↔
      (∃ p ∈ cfg.sig, p.kind = ParamKind.positionalOrKeyword ∧ p.name = "cuda") ∨
      (∃ p ∈ cfg.sig, p.kind = ParamKind.varKeyword)) ∧
    ((innerKwargs cfg).logMethod = true ↔
      (∃ p ∈ cfg.sig, p.kind = ParamKind.positionalOrKeyword ∧ p.name = "log_method") ∨
      (∃ p ∈ cfg.sig, p.kind = ParamKind.varKeyword)) ∧
    ∀ (sentinel : V → Bool) (f : FKwargs → FOut V) (v : V) (taskId : ℕ) (s : PStore V),
      cfg.useCuda = true → (scanWants cfg.sig).1 = false →
      s.terminated = false → f (innerKwargs cfg) = FOut.ok v → sentinel v = false →
      LogMsg.cudaNotWantedWarning ∈ (runInner sentinel cfg f taskId s).2 ∧
      ((runInner sentinel cfg f taskId s).1).lookupResult taskId = some (Sum.inl v) ∧
      ((runInner sentinel cfg f taskId s).1).terminated = s.terminated := by
  refine ⟨?_, ?_, ?_⟩
  · rw [← scanWants_fst_iff]
    constructor
    · intro h
      by_contra hw
      simp only [innerKwargs, Bool.not_eq_true] at h hw
      rw [hw] at h
      simp at h
    · intro h
      simp [innerKwargs, h]
  · rw [← scanWants_snd_iff]
    constructor
    · intro h
      simpa [innerKwargs] using h
    · intro h
      simp [innerKwargs, h]
  · intro sentinel f v taskId s hcuda hwc hterm hf hsv
    refine ⟨?_, ?_, ?_⟩
    · simp [runInner, hterm, hf, hwc, hcuda, hsv]
    · simp [runInner, hterm, hf, hwc, hsv, setResult, PStore.lookupResult, List.lookup]
    · simp [runInner, hterm, hf, hwc, hsv, setResult]

/-- Witness for `inner_capability_passing`: the function `lambda x: x + 1`
run with `use_cuda = True` — warning logged, result recorded, flag
untouched. -/
theorem inner_capability_passing_witness :
    LogMsg.cudaNotWantedWarning ∈
      (runInner (fun _ => false) ⟨true, [⟨"x", ParamKind.positionalOrKeyword⟩], none⟩
        (fun _ => FOut.ok (7 : ℤ)) 0 (initStore ℤ 4 2)).2 ∧
    ((runInner (fun _ => false) ⟨true, [⟨"x", ParamKind.positionalOrKeyword⟩], none⟩
        (fun _ => FOut.ok (7 : ℤ)) 0 (initStore ℤ 4 2)).1).lookupResult 0
      = some (Sum.inl 7) ∧
    ((runInner (fun _ => false) ⟨true, [⟨"x", ParamKind.positionalOrKeyword⟩], none⟩
        (fun _ => FOut.ok (7 : ℤ)) 0 (initStore ℤ 4 2)).1).terminated
      = (initStore ℤ 4 2).terminated :=
  (inner_capability_passing ⟨true, [⟨"x", ParamKind.positionalOrKeyword⟩], none⟩).2.2
    (fun _ => false) (fun _ => FOut.ok (7 : ℤ)) 7 0 (initStore ℤ 4 2)
    rfl rfl rfl rfl rfl

/-- C6 counterexample: `def f(x, *, cuda)` declares `cuda` in its
parameter list (the spec's reading), but the scan only recognizes
`POSITIONAL_OR_KEYWORD` parameters, so the adapter does not pass
`cuda`. -/
theorem keyword_only_cuda_not_passed_cex :
    specDeclaresCapability
        [⟨"x", ParamKind.positionalOrKeyword⟩, ⟨"cuda", ParamKind.keywordOnly⟩]
        "cuda" = true ∧
    (innerKwargs
        ⟨true, [⟨"x", ParamKind.positionalOrKeyword⟩, ⟨"cuda", ParamKind.keywordOnly⟩],
         some 0⟩).cuda = none := by
  decide

/-- Where in the parent's main `try` block a `KeyboardInterrupt` can be
delivered: inside `Parallel.__wait`'s own `try` (the slot-wait loop,
lines 212–235), or anywhere else in the block guarded only by
`Parallel.__call__`'s handlers (e.g. during the refill/admission sleep of
`_get_process`, or during the initialization phase). -/
inductive InterruptSite where
  | duringSlotWait
  | elsewhereInLoop
deriving DecidableEq

/-- The `_ParallelError("Keyboard Interrupted")` record: `__wait` raises
it after `_set_terminate` (line 235), and `__call__`'s
`except KeyboardInterrupt` handler constructs an identical one
(line 166). -/
def kbInterruptedErr : PyErr := "_ParallelError: Keyboard Interrupted"

/-- Outcome of the parent's interrupt handling: the final store, and
whether the `finally` block ran (joining every live child and shutting
the sync manager down). -/
structure InterruptOutcome (V : Type) where
  store : PStore V
  drained : Bool
deriving DecidableEq

/-- The parent's handling of a `KeyboardInterrupt`
(`Parallel.__wait`, lines 233–235, and `Parallel.__call__`,
lines 163–183).

* Interrupt inside the slot-wait loop: `__wait`'s handler calls
  `_set_terminate` and raises `_ParallelError`, which the
  `except Exception` branch catches, writing it under
  `__exceptions__["base"]`.
* Interrupt anywhere else in the main `try`: the
  `except KeyboardInterrupt` branch (lines 163–167) writes a fresh
  `_ParallelError("Keyboard Interrupted")` under `__exceptions__["base"]`
  — and calls `_set_terminate` nowhere.

In both cases the `finally` block (lines 173–183) joins every remaining
process and shuts the sync manager down (`drained = true`). -/
def handleParentInterrupt (V : Type) (site : InterruptSite) (s : PStore V) :
    InterruptOutcome V :=
  match site with
  | InterruptSite.duringSlotWait =>
      ⟨setException (setTerminateStore s) RKey.base kbInterruptedErr, true⟩
  | InterruptSite.elsewhereInLoop =>
      ⟨setException s RKey.base kbInterruptedErr, true⟩

/-- C7 counterexample: a `KeyboardInterrupt` delivered outside the
slot-wait loop (e.g. during the admission-retry sleep of
`_get_process`) is caught by `except KeyboardInterrupt`, which records
`base` but never calls `_set_terminate` — the termination flag stays
`false`, contradicting the claim for that interrupt point. -/
theorem interrupt_elsewhere_no_terminate_cex :
    (handleParentInterrupt ℤ InterruptSite.elsewhereInLoop (initStore ℤ 2 3)).store.terminated
      = false ∧
    ((handleParentInterrupt ℤ InterruptSite.elsewhereInLoop
        (initStore ℤ 2 3)).store.exceptions).lookup RKey.base = some kbInterruptedErr := by
  decide

/-- C7 (amended): for every interrupt point, the supervisor catches the
interrupt, records a `_ParallelError` under `__exceptions__["base"]`, and
proceeds to the drain phase (all live children joined, manager shut
down); the termination flag is set exactly when the interrupt arrives
inside the slot-wait loop `__wait` — an interrupt caught elsewhere in the
main block leaves the flag as it was. -/
theorem interrupt_handling (V : Type) (site : InterruptSite) (s : PStore V) :
    ((handleParentInterrupt V site s).store.exceptions).lookup RKey.base
      = some kbInterruptedErr ∧
    (handleParentInterrupt V site s).drained = true ∧
    (handleParentInterrupt V site s).store.terminated
      = (s.terminated || (site == InterruptSite.duringSlotWait)) := by
  cases site <;>
    simp [handleParentInterrupt, setException, setTerminateStore, List.lookup]

/-- `Parallel._user_terminate` (lines 285–296): after joining every live
child it raises `_ParallelError("Parallel terminated by user action")`
when the recorded `__exceptions__` submap is empty and
`_ParallelError("Parallel terminated by unexpected errors")` otherwise.
This function returns the raised error's message. -/
def userTerminateMessage {V : Type} (s : PStore V) : PyErr :=
  if s.exceptions.isEmpty then "Parallel terminated by user action"
  else "Parallel terminated by unexpected errors"

/-- C8: entering the terminating phase surfaces the
"terminated by user action" error exactly when `__exceptions__` is empty
and the "terminated by unexpected errors" error exactly when it is
non-empty. -/
theorem user_terminate_message_cases (V : Type) (s : PStore V) :
    (userTerminateMessage s = "Parallel terminated by user action" ↔
      s.exceptions = []) ∧
    (userTerminateMessage s = "Parallel terminated by unexpected errors" ↔
      s.exceptions ≠ []) := by
  cases h : s.exceptions with
  | nil => simp [userTerminateMessage, h]
  | cons a l =>
      constructor
      · simp only [userTerminateMessage, h, List.isEmpty_cons, if_neg Bool.false_ne_true]
        constructor
        · intro hmsg
          exact absurd hmsg (by decide)
        · intro hcontra
          exact absurd hcontra (List.cons_ne_nil a l)
      · simp [userTerminateMessage, h]

/-- The parameter-selection loop of `HPOBase.search`
(`src/cftool/ml/hpo/base.py`, lines 114–120):

`for i, param in enumerate(self.param_generator.all()):` — append `param`
when `i` is in the sampled index set, then break as soon as
`len(all_params) == num_search`.  `i` is the running index, `acc` the
`all_params` accumulator. -/
def hpoSelectAux {α : Type} (indices : List ℕ) (numSearch : ℕ) :
    ℕ → List α → List α → List α
  | _, acc, [] => acc
  | i, acc, p :: ps =>
    let acc2 := if i ∈ indices then acc ++ [p] else acc
    if acc2.length = numSearch then acc2
    else hpoSelectAux indices numSearch (i + 1) acc2 ps

/-- The selection of `all_params` from the generator's enumeration given
the drawn index set. -/
def hpoSelect {α : Type} (indices : List ℕ) (numSearch : ℕ) (params : List α) :
    List α :=
  hpoSelectAux indices numSearch 0 [] params

/-- When every index below `numSearch` is drawn, the loop appends every
parameter until the accumulator reaches `numSearch`, i.e. it takes the
enumeration's prefix. -/
theorem hpoSelectAux_take {α : Type} (indices : List ℕ) (n : ℕ)
    (hmem : ∀ j, j ∈ indices ↔ j < n) :
    ∀ (ps : List α) (i : ℕ) (acc : List α),
      acc.length = i → i < n → n ≤ i + ps.length →
      hpoSelectAux indices n i acc ps = acc ++ ps.take (n - i) := by
  intro ps
  induction ps with
  | nil =>
      intro i acc _ hi hn
      simp at hn
      omega
  | cons p ps ih =>
      intro i acc hacc hi hn
      have hin : i ∈ indices := (hmem i).mpr hi
      simp only [hpoSelectAux, if_pos hin]
      have hlen : (acc ++ [p]).length = i + 1 := by simp [hacc]
      by_cases hend : i + 1 = n
      · rw [if_pos (hlen.trans hend)]
        have : n - i = 1 := by omega
        simp [this]
      · have hlt : i + 1 < n := by omega
        rw [if_neg (by omega)]
        rw [ih (i + 1) (acc ++ [p]) hlen hlt (by simp at hn ⊢; omega)]
        have : n - i = (n - (i + 1)) + 1 := by omega
        simp [this, List.take_succ_cons]

/-- C9: in `HPOBase.search` with a finite parameter space and
`num_search ≤ n_params`, the index set drawn by
`random.sample(list(range(num_search)), k=num_search)` samples the output
index space: whatever the seed — i.e. for every draw of `num_search`
distinct elements of `range(num_search)` — the drawn set equals
`{0, …, num_search−1}`, and the selected `all_params` are exactly the
first `num_search` parameters enumerated by the generator. -/
theorem hpo_sample_selects_first_params {α : Type} (n : ℕ) (sampled : List ℕ)
    (params : List α)
    (hnd : sampled.Nodup) (hub : ∀ i ∈ sampled, i < n)
    (hlen : sampled.length = n) (hpar : n ≤ params.length) :
    (∀ i, i ∈ sampled ↔ i < n) ∧ hpoSelect sampled n params = params.take n := by
  have hmem : ∀ i, i ∈ sampled ↔ i < n := by
    have hsub : sampled.toFinset ⊆ Finset.range n := by
      intro i hi
      exact Finset.mem_range.mpr (hub i (List.mem_toFinset.mp hi))
    have hcard : (Finset.range n).card ≤ sampled.toFinset.card := by
      rw [Finset.card_range, List.toFinset_card_of_nodup hnd, hlen]
    have heq : sampled.toFinset = Finset.range n :=
      Finset.eq_of_subset_of_card_le hsub hcard
    intro i
    rw [← List.mem_toFinset, heq, Finset.mem_range]
  refine ⟨hmem, ?_⟩
  rcases Nat.eq_zero_or_pos n with hn0 | hnpos
  · subst hn0
    have hempty : sampled = [] := List.eq_nil_of_length_eq_zero hlen
    subst hempty
    cases params with
    | nil => rfl
    | cons p ps => simp [hpoSelect, hpoSelectAux]
  · rw [hpoSelect, hpoSelectAux_take sampled n hmem params 0 [] rfl hnpos (by omega)]
    simp

/-- Witness for `hpo_sample_selects_first_params`: the draw `[2, 0, 1]` of
`range(3)` selects the first three of four parameters. -/
theorem hpo_sample_selects_first_params_witness :
    hpoSelect [2, 0, 1] 3 [10, 20, 30, 40] = [10, 20, 30] :=
  (hpo_sample_selects_first_params 3 [2, 0, 1] [10, 20, 30, 40]
    (by decide) (by decide) (by decide) (by decide)).2

/-- Python 3's built-in `round` on an exact rational: round half to even
(banker's rounding), nearest integer otherwise.  (Mathlib's `round` is
round-half-up, which agrees whenever the fractional part is not 1/2; at
the inputs of the claim below the argument is an exact integer, where
every rounding convention agrees.) -/
def pyRound (q : ℚ) : ℤ :=
  if q - ⌊q⌋ = 1 / 2 then (if 2 ∣ ⌊q⌋ then ⌊q⌋ else ⌊q⌋ + 1)
  else round q

/-- The categorical branch of `CubeNormalizer.normalize`
(`src/cftool/ml/param_utils/normalizers/cube/core.py`, lines 13–16):
`idx = self._choices.index(value); return idx / (len(self._choices) - 1)`.
Exact rational arithmetic idealizes Python's float division;
`List.indexOf` is Python's `list.index` (first occurrence; Python raises
`ValueError` when the value is absent, excluded by the claim's
hypothesis). -/
def cubeNormalize {α : Type} [DecidableEq α] (choices : List α) (v : α) : ℚ :=
  ((choices.indexOf v : ℚ)) / ((choices.length : ℚ) - 1)

/-- The categorical branch of `CubeNormalizer.recover` (lines 21–25):
`idx = int(round(value * (len(self._choices) - 1)))` followed by the
clamp `idx = max(0, min(len(self._choices) - 1, idx))` and the indexing
`self._choices[idx]` (`none` models Python's `IndexError`, which the
clamp makes impossible for nonempty choices). -/
def cubeRecover {α : Type} [DecidableEq α] (choices : List α) (x : ℚ) : Option α :=
  let idx : ℤ := pyRound (x * ((choices.length : ℚ) - 1))
  let clamped : ℤ := max 0 (min ((choices.length : ℤ) - 1) idx)
  choices[clamped.toNat]?

/-- `pyRound` is the identity on integer-valued rationals. -/
theorem pyRound_natCast (k : ℕ) : pyRound (k : ℚ) = k := by
  have hfl : ⌊(k : ℚ)⌋ = (k : ℤ) := Int.floor_natCast k
  have hfrac : (k : ℚ) - ⌊(k : ℚ)⌋ = 0 := by rw [hfl]; push_cast; ring
  rw [pyRound, hfrac, if_neg (by norm_num)]
  exact round_natCast k

/-- C10: on a choices list of at least two pairwise-distinct elements,
`CubeNormalizer.recover` is a left inverse of `CubeNormalizer.normalize`
on the choices. -/
theorem cube_recover_normalize {α : Type} [DecidableEq α]
    (choices : List α) (v : α)
    (hnd : choices.Nodup) (hlen : 2 ≤ choices.length) (hv : v ∈ choices) :
    cubeRecover choices (cubeNormalize choices v) = some v := by
  have hk : choices.indexOf v < choices.length := List.indexOf_lt_length.mpr hv
  have hne : ((choices.length : ℚ) - 1) ≠ 0 := by
    have : (2 : ℚ) ≤ (choices.length : ℚ) := by exact_mod_cast hlen
    intro hcontra
    have : (choices.length : ℚ) = 1 := by linarith
    linarith
  have hmul : cubeNormalize choices v * ((choices.length : ℚ) - 1)
      = (choices.indexOf v : ℚ) := by
    rw [cubeNormalize, div_mul_cancel₀ _ hne]
  have hround : pyRound (cubeNormalize choices v * ((choices.length : ℚ) - 1))
      = (choices.indexOf v : ℤ) := by
    rw [hmul]; exact pyRound_natCast _
  have hclamp : max 0 (min ((choices.length : ℤ) - 1) ((choices.indexOf v : ℤ)))
      = (choices.indexOf v : ℤ) := by omega
  rw [cubeRecover]
  simp only [hround, hclamp, Int.toNat_natCast]
  rw [List.getElem?_eq_getElem hk]
  exact congrArg some (List.getElem_indexOf hk)

/-- Witness for `cube_recover_normalize` on the choices `[3, 7, 9]` at
value `7`. -/
theorem cube_recover_normalize_witness :
    cubeRecover [(3 : ℤ), 7, 9] (cubeNormalize [(3 : ℤ), 7, 9] 7) = some 7 :=
  cube_recover_normalize [(3 : ℤ), 7, 9] 7 (by decide) (by decide) (by decide)
